import Mathlib

/-!
Verification of the field-extraction and record-assembly pipeline of
`extract_pdf_data.py` (class `PDFExtractor`).

Texts are modelled as `List Char`.  External collaborators (the completion
service, the scholarly citation index, PDF text extraction) are modelled as
oracle functions passed in as parameters; a call that raises an exception in
Python is an oracle answer of the form `Except.error e`.
-/

/-- The ASCII whitespace characters recognised by Python's `str.strip()` and
by the regex class `\s` (restricted to ASCII). -/
def isSpaceChar (c : Char) : Bool :=
  c == ' ' || c == '\t' || c == '\n' || c == '\r' || c == '\x0b' || c == '\x0c'

/-- Python `str.strip()`: remove leading and trailing whitespace. -/
def pyStrip (s : List Char) : List Char :=
  (((s.dropWhile isSpaceChar).reverse.dropWhile isSpaceChar)).reverse

/-- Python `str.split(sep)` for a single-character separator: split at every
occurrence of the separator, keeping empty pieces. -/
def pySplit (sep : Char) : List Char → List (List Char)
  | [] => [[]]
  | c :: cs =>
    if c = sep then [] :: pySplit sep cs
    else
      match pySplit sep cs with
      | r :: rs => (c :: r) :: rs
      | [] => [[c]]

/-- Python `sep.join(items)`. -/
def pyJoin (sep : List Char) : List (List Char) → List Char
  | [] => []
  | [x] => x
  | x :: xs => x ++ sep ++ pyJoin sep xs

/-- `PDFExtractor.clean_extracted_info`: list-like fields are comma-split,
trimmed, emptied of blank items and re-joined with a semicolon separator;
the recognised scalar fields are trimmed; anything else passes through. -/
def clean_extracted_info (info : List Char) (info_type : String) : List Char :=
  if info_type = "Authors" ∨ info_type = "Keywords" then
    pyJoin "; ".data (((pySplit ',' info).map pyStrip).filter (fun l => !l.isEmpty))
  else if info_type = "Title" ∨ info_type = "Source" ∨ info_type = "Document Type" ∨
      info_type = "Abstract" ∨ info_type = "Affiliations" ∨
      info_type = "Corresponding Author" ∨ info_type = "Publication Year" ∨
      info_type = "Volume" ∨ info_type = "Issue" ∨ info_type = "Start Page" ∨
      info_type = "End Page" ∨ info_type = "DOI" ∨
      info_type = "Unique Article Identifier" then
    pyStrip info
  else
    info

/-- The normalization applied to list-like fields (Authors, Keywords):
comma-split, trim, drop empties, rejoin with a semicolon separator. -/
def cleanList (s : List Char) : List Char :=
  pyJoin "; ".data (((pySplit ',' s).map pyStrip).filter (fun l => !l.isEmpty))

theorem dropWhile_head_false {α : Type} (p : α → Bool) :
    ∀ {l t : List α} {c : α}, List.dropWhile p l = c :: t → p c = false := by
  intro l
  induction l with
  | nil => intro t c h; exact absurd h (by simp [List.dropWhile])
  | cons a l ih =>
    intro t c h
    by_cases ha : p a
    · exact ih (by simpa [List.dropWhile_cons_of_pos ha] using h)
    · rw [List.dropWhile_cons_of_neg ha] at h
      cases h
      simpa using ha

theorem takeWhile_mem_true {α : Type} (p : α → Bool) :
    ∀ {l : List α} {a : α}, a ∈ List.takeWhile p l → p a = true := by
  intro l
  induction l with
  | nil => intro a h; simp [List.takeWhile] at h
  | cons b l ih =>
    intro a h
    by_cases hb : p b
    · rw [List.takeWhile_cons_of_pos hb] at h
      rcases List.mem_cons.1 h with rfl | h
      · exact hb
      · exact ih h
    · rw [List.takeWhile_cons_of_neg hb] at h
      simp at h

/-- pyStrip returns the middle of the input: some all-whitespace piece is
removed from each side. -/
theorem pyStrip_decomp (s : List Char) :
    ∃ u v, s = u ++ pyStrip s ++ v ∧
      (∀ c ∈ u, isSpaceChar c = true) ∧ (∀ c ∈ v, isSpaceChar c = true) := by
  refine ⟨s.takeWhile isSpaceChar,
    ((s.dropWhile isSpaceChar).reverse.takeWhile isSpaceChar).reverse, ?_, ?_, ?_⟩
  · conv_lhs => rw [← List.takeWhile_append_dropWhile isSpaceChar s]
    rw [List.append_assoc]
    congr 1
    conv_lhs =>
      rw [← List.reverse_reverse (s.dropWhile isSpaceChar),
        ← List.takeWhile_append_dropWhile isSpaceChar (s.dropWhile isSpaceChar).reverse]
    rw [List.reverse_append]
    rfl
  · intro c hc; exact takeWhile_mem_true isSpaceChar hc
  · intro c hc
    rw [List.mem_reverse] at hc
    exact takeWhile_mem_true isSpaceChar hc

theorem dropWhile_eq_append (p : Char → Bool) (s : List Char) :
    s = s.takeWhile p ++ s.dropWhile p :=
  (List.takeWhile_append_dropWhile p s).symm

theorem pyStrip_append_space (s : List Char) :
    s.dropWhile isSpaceChar =
      pyStrip s ++ ((s.dropWhile isSpaceChar).reverse.takeWhile isSpaceChar).reverse := by
  conv_lhs =>
    rw [← List.reverse_reverse (s.dropWhile isSpaceChar),
      ← List.takeWhile_append_dropWhile isSpaceChar (s.dropWhile isSpaceChar).reverse]
  rw [List.reverse_append]
  rfl

theorem pyStrip_head {s t : List Char} {c : Char}
    (h : pyStrip s = c :: t) : isSpaceChar c = false := by
  have hd := pyStrip_append_space s
  rw [h] at hd
  exact dropWhile_head_false isSpaceChar hd

theorem pyStrip_last {s t : List Char} {c : Char}
    (h : (pyStrip s).reverse = c :: t) : isSpaceChar c = false := by
  have : (pyStrip s).reverse = (s.dropWhile isSpaceChar).reverse.dropWhile isSpaceChar := by
    simp [pyStrip]
  rw [this] at h
  exact dropWhile_head_false isSpaceChar h

/-- A list whose two ends are not whitespace (vacuously so when empty). -/
def noSpaceEnds (l : List Char) : Prop :=
  (∀ c t, l = c :: t → isSpaceChar c = false) ∧
  (∀ c t, l.reverse = c :: t → isSpaceChar c = false)

theorem pyStrip_noSpaceEnds (s : List Char) : noSpaceEnds (pyStrip s) :=
  ⟨fun _ _ h => pyStrip_head h, fun _ _ h => pyStrip_last h⟩

theorem pyStrip_eq_self {s : List Char} (h : noSpaceEnds s) : pyStrip s = s := by
  cases s with
  | nil => rfl
  | cons a t =>
    have h1 : List.dropWhile isSpaceChar (a :: t) = a :: t :=
      List.dropWhile_cons_of_neg (by simp [h.1 a t rfl])
    cases hrev : (a :: t).reverse with
    | nil => exact absurd hrev (by simp)
    | cons b u =>
      have h2 : List.dropWhile isSpaceChar (a :: t).reverse = (a :: t).reverse := by
        rw [hrev]
        exact List.dropWhile_cons_of_neg (by simp [h.2 b u hrev])
      simp only [pyStrip, h1, h2, List.reverse_reverse]

theorem pyStrip_idem (s : List Char) : pyStrip (pyStrip s) = pyStrip s :=
  pyStrip_eq_self (pyStrip_noSpaceEnds s)

theorem mem_pyStrip {s : List Char} {a : Char} (h : a ∈ pyStrip s) : a ∈ s := by
  obtain ⟨u, v, he, -, -⟩ := pyStrip_decomp s
  rw [he]
  simp [h]

theorem pySplit_ne_nil {sep : Char} : ∀ (s : List Char), pySplit sep s ≠ [] := by
  intro s
  cases s with
  | nil => simp [pySplit]
  | cons c cs =>
    rw [pySplit]
    by_cases hc : c = sep
    · rw [if_pos hc]; simp
    · rw [if_neg hc]
      cases hr : pySplit sep cs with
      | nil => simp
      | cons r rs => simp

theorem pySplit_cons_of_ne {sep c : Char} {cs r : List Char} {rs : List (List Char)}
    (hc : ¬ c = sep) (hr : pySplit sep cs = r :: rs) :
    pySplit sep (c :: cs) = (c :: r) :: rs := by
  rw [pySplit, if_neg hc, hr]

theorem pySplit_mem_not_sep {sep : Char} :
    ∀ {s x : List Char}, x ∈ pySplit sep s → sep ∉ x := by
  intro s
  induction s with
  | nil =>
    intro x hx
    simp only [pySplit, List.mem_singleton] at hx
    simp [hx]
  | cons c cs ih =>
    intro x hx
    by_cases hc : c = sep
    · rw [pySplit, if_pos hc] at hx
      rcases List.mem_cons.1 hx with rfl | hx
      · simp
      · exact ih hx
    · cases hr : pySplit sep cs with
      | nil => exact absurd hr (pySplit_ne_nil cs)
      | cons r rs =>
        rw [pySplit_cons_of_ne hc hr] at hx
        rcases List.mem_cons.1 hx with rfl | hx
        · intro hmem
          rcases List.mem_cons.1 hmem with h | h
          · exact hc h.symm
          · exact ih (hr ▸ List.mem_cons_self r rs) h
        · exact ih (hr ▸ List.mem_cons_of_mem r hx)

theorem pySplit_no_sep {sep : Char} :
    ∀ {r : List Char}, sep ∉ r → pySplit sep r = [r] := by
  intro r
  induction r with
  | nil => intro _; rfl
  | cons c cs ih =>
    intro h
    have hc : ¬ c = sep := fun he => h (he ▸ List.mem_cons_self c cs)
    have hcs : sep ∉ cs := fun he => h (List.mem_cons_of_mem c he)
    exact pySplit_cons_of_ne hc (ih hcs)

theorem pyJoin_cons_cons (sep x y : List Char) (ys : List (List Char)) :
    pyJoin sep (x :: y :: ys) = x ++ sep ++ pyJoin sep (y :: ys) := rfl

theorem pyJoin_not_mem {sep : List Char} {a : Char} (hsep : a ∉ sep) :
    ∀ {items : List (List Char)}, (∀ x ∈ items, a ∉ x) → a ∉ pyJoin sep items := by
  intro items
  induction items with
  | nil => intro _; simp [pyJoin]
  | cons x xs ih =>
    intro h
    cases xs with
    | nil => exact h x (List.mem_singleton_self x)
    | cons y ys =>
      rw [pyJoin_cons_cons]
      intro hmem
      rcases List.mem_append.1 hmem with hmem | hmem
      · rcases List.mem_append.1 hmem with hmem | hmem
        · exact h x (List.mem_cons_self _ _) hmem
        · exact hsep hmem
      · exact ih (fun z hz => h z (List.mem_cons_of_mem x hz)) hmem

theorem pyJoin_head {sep : List Char} {x : List Char} {xs : List (List Char)}
    {c : Char} {t : List Char} (hx : x = c :: t) :
    ∃ t2, pyJoin sep (x :: xs) = c :: t2 := by
  cases xs with
  | nil => exact ⟨t, hx⟩
  | cons y ys =>
    rw [pyJoin_cons_cons, hx]
    exact ⟨t ++ (sep ++ pyJoin sep (y :: ys)), by simp⟩

theorem pyJoin_ne_nil {sep : List Char} {x : List Char} {xs : List (List Char)}
    (hx : x ≠ []) : pyJoin sep (x :: xs) ≠ [] := by
  cases x with
  | nil => exact absurd rfl hx
  | cons c t =>
    obtain ⟨t2, ht2⟩ := @pyJoin_head sep (c :: t) xs c t rfl
    rw [ht2]
    simp

theorem pyJoin_noSpaceEnds {sep : List Char} :
    ∀ {items : List (List Char)},
      (∀ x ∈ items, x ≠ [] ∧ noSpaceEnds x) → noSpaceEnds (pyJoin sep items) := by
  intro items
  induction items with
  | nil => intro _; exact ⟨fun c t h => by simp [pyJoin] at h, fun c t h => by simp [pyJoin] at h⟩
  | cons x xs ih =>
    intro h
    cases xs with
    | nil => exact (h x (List.mem_singleton_self x)).2
    | cons y ys =>
      have hx := h x (List.mem_cons_self _ _)
      have hrest : ∀ z ∈ y :: ys, z ≠ [] ∧ noSpaceEnds z :=
        fun z hz => h z (List.mem_cons_of_mem x hz)
      have hjoin := ih hrest
      constructor
      · intro c t hct
        rw [pyJoin_cons_cons] at hct
        cases hx' : x with
        | nil => exact absurd hx' hx.1
        | cons b u =>
          rw [hx'] at hct
          simp only [List.cons_append] at hct
          cases hct
          exact hx.2.1 _ _ hx'
      · intro c t hct
        rw [pyJoin_cons_cons] at hct
        rw [List.reverse_append, List.reverse_append] at hct
        cases hj : (pyJoin sep (y :: ys)).reverse with
        | nil =>
          exact absurd (by simpa using hj)
            (pyJoin_ne_nil (hrest y (List.mem_cons_self _ _)).1)
        | cons b u =>
          rw [hj] at hct
          simp only [List.cons_append] at hct
          cases hct
          exact hjoin.2 _ _ hj

theorem cleanList_items {s : List Char} {x : List Char}
    (hx : x ∈ ((pySplit ',' s).map pyStrip).filter (fun l => !l.isEmpty)) :
    x ≠ [] ∧ noSpaceEnds x ∧ ',' ∉ x := by
  have hne : x ≠ [] := by
    have := List.of_mem_filter hx
    simpa using this
  have hmap := List.mem_of_mem_filter hx
  obtain ⟨w, hw, rfl⟩ := List.mem_map.1 hmap
  refine ⟨hne, pyStrip_noSpaceEnds w, fun hc => ?_⟩
  exact pySplit_mem_not_sep hw (mem_pyStrip hc)

theorem cleanList_fix (r : List Char)
    (hcf : ',' ∉ r) (hends : noSpaceEnds r) : cleanList r = r := by
  rw [cleanList, pySplit_no_sep hcf, List.map_singleton, pyStrip_eq_self hends]
  cases r with
  | nil => rfl
  | cons c t => rfl

theorem cleanList_idem (s : List Char) : cleanList (cleanList s) = cleanList s := by
  have hitems : ∀ x ∈ ((pySplit ',' s).map pyStrip).filter (fun l => !l.isEmpty),
      x ≠ [] ∧ noSpaceEnds x :=
    fun x hx => ⟨(cleanList_items hx).1, (cleanList_items hx).2.1⟩
  have hcf : ',' ∉ cleanList s := by
    rw [cleanList]
    exact pyJoin_not_mem (by decide)
      (fun x hx => (cleanList_items hx).2.2)
  have hends : noSpaceEnds (cleanList s) := by
    rw [cleanList]
    exact pyJoin_noSpaceEnds hitems
  exact cleanList_fix _ hcf hends

/-- C9: the normalizer is idempotent - applying clean_extracted_info a second
time with the same field type never changes the result. -/
theorem normalize_idempotent (s : List Char) (t : String) :
    clean_extracted_info (clean_extracted_info s t) t = clean_extracted_info s t := by
  by_cases h1 : t = "Authors" ∨ t = "Keywords"
  · have e : ∀ w, clean_extracted_info w t = cleanList w := fun w => by
      simp only [clean_extracted_info, if_pos h1, cleanList]
    rw [e, e, cleanList_idem]
  · by_cases h2 : t = "Title" ∨ t = "Source" ∨ t = "Document Type" ∨
        t = "Abstract" ∨ t = "Affiliations" ∨
        t = "Corresponding Author" ∨ t = "Publication Year" ∨
        t = "Volume" ∨ t = "Issue" ∨ t = "Start Page" ∨
        t = "End Page" ∨ t = "DOI" ∨
        t = "Unique Article Identifier"
    · have e : ∀ w, clean_extracted_info w t = pyStrip w := fun w => by
        simp only [clean_extracted_info, if_neg h1, if_pos h2]
      rw [e, e, pyStrip_idem]
    · simp only [clean_extracted_info, if_neg h1, if_neg h2]

/-- C7: normalizing a raw string under a list-like field type (Authors or
Keywords) splits on commas, trims each element, drops empty elements and
rejoins with a semicolon-space separator; in particular
normalize("Smith, J., Doe, A.", Authors) = "Smith; J.; Doe; A.". -/
theorem list_field_normalization :
    (∀ (info : List Char) (t : String), t = "Authors" ∨ t = "Keywords" →
      clean_extracted_info info t =
        pyJoin "; ".data
          (((pySplit ',' info).map pyStrip).filter (fun l => !l.isEmpty))) ∧
    clean_extracted_info "Smith, J., Doe, A.".data "Authors" =
      "Smith; J.; Doe; A.".data := by
  constructor
  · intro info t h
    simp only [clean_extracted_info, if_pos h]
  · decide

theorem list_field_normalization_witness :
    clean_extracted_info "a, b".data "Keywords" =
      pyJoin "; ".data
        (((pySplit ',' "a, b".data).map pyStrip).filter (fun l => !l.isEmpty)) :=
  list_field_normalization.1 "a, b".data "Keywords" (Or.inr rfl)

/-- C8: for a field type outside the recognized set (neither a list-like
field nor a recognized scalar field) the normalizer returns the input
unchanged, not even trimmed. -/
theorem unrecognized_passthrough (info : List Char) (t : String)
    (h1 : ¬(t = "Authors" ∨ t = "Keywords"))
    (h2 : ¬(t = "Title" ∨ t = "Source" ∨ t = "Document Type" ∨
      t = "Abstract" ∨ t = "Affiliations" ∨
      t = "Corresponding Author" ∨ t = "Publication Year" ∨
      t = "Volume" ∨ t = "Issue" ∨ t = "Start Page" ∨
      t = "End Page" ∨ t = "DOI" ∨
      t = "Unique Article Identifier")) :
    clean_extracted_info info t = info := by
  simp only [clean_extracted_info, if_neg h1, if_neg h2]

theorem unrecognized_passthrough_witness :
    clean_extracted_info " x ".data "References" = " x ".data :=
  unrecognized_passthrough " x ".data "References" (by decide) (by decide)

/-! ## Reference section locator (`PDFExtractor.extract_references`) -/

/-- Python regex word character `\w` restricted to ASCII. -/
def isWordChar (c : Char) : Bool := c.isAlphanum || c = '_'

/-- Case-insensitive character comparison, as performed by `re.IGNORECASE`
on ASCII letters. -/
def lowerEq (p c : Char) : Bool := p.toLower == c.toLower

/-- Case-insensitive prefix match of a literal pattern against a text. -/
def matchesAt : List Char → List Char → Bool
  | [], _ => true
  | _ :: _, [] => false
  | p :: ps, c :: cs => lowerEq p c && matchesAt ps cs

/-- The header keyword vocabulary of the combined pattern
(?:References|Bibliography|Works Cited|Literature Cited)|Reference List. -/
def refKeywords : List (List Char) :=
  ["References".data, "Bibliography".data, "Works Cited".data,
   "Literature Cited".data, "Reference List".data]

/-- The regex `\b` test on the left side of a keyword (whose first character
is a word character): the previous character, if any, must not be a word
character. -/
def boundaryBefore (prev : Option Char) : Bool :=
  match prev with
  | none => true
  | some c => !isWordChar c

/-- The regex `\b` test after a keyword (whose last character is a word
character): the following character, if any, must not be a word character. -/
def boundaryAfter (k : List Char) (s : List Char) : Bool :=
  match s.drop k.length with
  | [] => true
  | c :: _ => !isWordChar c

/-- Whether the combined header pattern matches at the start of `s`, where
`prev` is the character immediately before `s` in the whole text. -/
def headerAt (prev : Option Char) (s : List Char) : Bool :=
  boundaryBefore prev &&
    refKeywords.any (fun k => matchesAt k s && boundaryAfter k s)

/-- The scan performed by `re.search` for the header pattern: index of the
leftmost position at which the pattern matches. -/
def findHeaderFrom (prev : Option Char) : List Char → Option Nat
  | [] => none
  | c :: cs =>
    if headerAt prev (c :: cs) then some 0
    else (findHeaderFrom (some c) cs).map (· + 1)

/-- The trailing-section words of the first end marker
`\n\s*(?:Appendix|Acknowledgments|Tables|Figures)`. -/
def endWords : List (List Char) :=
  ["Appendix".data, "Acknowledgments".data, "Tables".data, "Figures".data]

/-- After the newline of the first end marker: zero or more whitespace
characters followed by one of the trailing-section words. -/
def spacesThenWord : List Char → Bool
  | [] => false
  | c :: cs =>
    endWords.any (fun w => matchesAt w (c :: cs)) ||
      (isSpaceChar c && spacesThenWord cs)

/-- Four consecutive decimal digits (`\d\x7b4\x7d`) at the start of `s`. -/
def fourDigitsAt (s : List Char) : Bool :=
  match s with
  | a :: b :: c :: d :: _ => a.isDigit && b.isDigit && c.isDigit && d.isDigit
  | _ => false

/-- Zero or more whitespace characters followed by four digits. -/
def spacesThenFourDigits : List Char → Bool
  | [] => false
  | c :: cs => fourDigitsAt (c :: cs) || (isSpaceChar c && spacesThenFourDigits cs)

/-- The two literal characters of the (mojibake) copyright sign in the source
pattern, followed by `\s*\d\x7b4\x7d`. -/
def copyrightTail (s : List Char) : Bool :=
  match s with
  | a :: b :: rest => lowerEq 'Â' a && lowerEq '©' b && spacesThenFourDigits rest
  | _ => false

/-- After the newline of the second end marker: zero or more whitespace
characters followed by the copyright sign and a four-digit year. -/
def spacesThenCopyright : List Char → Bool
  | [] => false
  | c :: cs => copyrightTail (c :: cs) || (isSpaceChar c && spacesThenCopyright cs)

/-- First end marker `\n\s*(?:Appendix|Acknowledgments|Tables|Figures)`
matching at the start of `s`. -/
def marker1At (s : List Char) : Bool :=
  match s with
  | c :: cs => c = '\n' && spacesThenWord cs
  | [] => false

/-- Second end marker (newline, whitespace, copyright sign, year) matching at
the start of `s`. -/
def marker2At (s : List Char) : Bool :=
  match s with
  | c :: cs => c = '\n' && spacesThenCopyright cs
  | [] => false

/-- `re.search` for a position predicate: index of the leftmost position of
`s` at which `p` holds for the text from that position on. -/
def searchPos (p : List Char → Bool) : List Char → Option Nat
  | [] => none
  | c :: cs =>
    if p (c :: cs) then some 0
    else (searchPos p cs).map (· + 1)

/-- The end-of-references computation of `extract_references`: start from the
span length and take the minimum with the start of each end-marker match. -/
def endPos (text_from_refs : List Char) : Nat :=
  let e0 := text_from_refs.length
  let e1 :=
    match searchPos marker1At text_from_refs with
    | some p => min e0 p
    | none => e0
  match searchPos marker2At text_from_refs with
  | some p => min e1 p
  | none => e1

/-- `PDFExtractor.extract_references`: find the first whole-word header
keyword; if none, return the sentinel; otherwise take the text from the
header to the earliest end marker (or the end) and strip it. -/
def extract_references (text : List Char) : List Char :=
  match findHeaderFrom none text with
  | none => "References not found".data
  | some i =>
    let text_from_refs := text.drop i
    pyStrip (text_from_refs.take (endPos text_from_refs))

theorem searchPos_eq_none {p : List Char → Bool} :
    ∀ {s : List Char}, searchPos p s = none → ∀ k < s.length, p (s.drop k) = false := by
  intro s
  induction s with
  | nil => intro _ k hk; simp at hk
  | cons c cs ih =>
    intro h k hk
    rw [searchPos] at h
    by_cases hp : p (c :: cs)
    · rw [if_pos hp] at h; cases h
    · rw [if_neg hp] at h
      cases k with
      | zero => simpa using hp
      | succ m =>
        have : searchPos p cs = none := by
          cases hr : searchPos p cs with
          | none => rfl
          | some j => rw [hr] at h; simp at h
        exact ih this m (by simpa using hk)

theorem searchPos_eq_some {p : List Char → Bool} :
    ∀ {s : List Char} {i : Nat}, searchPos p s = some i →
      i < s.length ∧ p (s.drop i) = true ∧ ∀ j < i, p (s.drop j) = false := by
  intro s
  induction s with
  | nil => intro i h; cases h
  | cons c cs ih =>
    intro i h
    rw [searchPos] at h
    by_cases hp : p (c :: cs)
    · rw [if_pos hp] at h
      cases h
      exact ⟨by simp, hp, fun j hj => absurd hj (by omega)⟩
    · rw [if_neg hp] at h
      cases hr : searchPos p cs with
      | none => rw [hr] at h; cases h
      | some j =>
        rw [hr] at h
        have h2 : some (j + 1) = some i := h
        cases h2
        obtain ⟨hjl, hpj, hbefore⟩ := ih hr
        refine ⟨by simpa using hjl, hpj, ?_⟩
        intro j2 hj2
        cases j2 with
        | zero => simpa using hp
        | succ m => exact hbefore m (by omega)

theorem endPos_le_length (s : List Char) : endPos s ≤ s.length := by
  rw [endPos]
  cases searchPos marker1At s <;> cases searchPos marker2At s <;> simp

theorem endPos_min (s : List Char) :
    ∀ q < endPos s,
      marker1At (s.drop q) = false ∧ marker2At (s.drop q) = false := by
  intro q hq
  rw [endPos] at hq
  cases h1 : searchPos marker1At s with
  | none =>
    cases h2 : searchPos marker2At s with
    | none =>
      rw [h1, h2] at hq
      exact ⟨searchPos_eq_none h1 q hq, searchPos_eq_none h2 q hq⟩
    | some p2 =>
      rw [h1, h2] at hq
      simp only at hq
      have hq2 : q < p2 := lt_of_lt_of_le hq (min_le_right _ _)
      have hqlen : q < s.length := lt_of_lt_of_le hq (min_le_left _ _)
      exact ⟨searchPos_eq_none h1 q hqlen, (searchPos_eq_some h2).2.2 q hq2⟩
  | some p1 =>
    cases h2 : searchPos marker2At s with
    | none =>
      rw [h1, h2] at hq
      simp only at hq
      have hq1 : q < p1 := lt_of_lt_of_le hq (min_le_right _ _)
      have hqlen : q < s.length := lt_of_lt_of_le hq (min_le_left _ _)
      exact ⟨(searchPos_eq_some h1).2.2 q hq1, searchPos_eq_none h2 q hqlen⟩
    | some p2 =>
      rw [h1, h2] at hq
      simp only at hq
      have hq1 : q < p1 := lt_of_lt_of_le hq (le_trans (min_le_left _ _) (min_le_right _ _))
      have hq2 : q < p2 := lt_of_lt_of_le hq (min_le_right _ _)
      exact ⟨(searchPos_eq_some h1).2.2 q hq1, (searchPos_eq_some h2).2.2 q hq2⟩

theorem endPos_hit (s : List Char) :
    endPos s = s.length ∨
      marker1At (s.drop (endPos s)) = true ∨ marker2At (s.drop (endPos s)) = true := by
  rw [endPos]
  cases h1 : searchPos marker1At s with
  | none =>
    cases h2 : searchPos marker2At s with
    | none => exact Or.inl rfl
    | some p2 =>
      simp only
      obtain ⟨hl, hp, -⟩ := searchPos_eq_some h2
      rw [min_eq_right (le_of_lt hl)]
      exact Or.inr (Or.inr hp)
  | some p1 =>
    obtain ⟨hl1, hp1, -⟩ := searchPos_eq_some h1
    cases h2 : searchPos marker2At s with
    | none =>
      simp only
      rw [min_eq_right (le_of_lt hl1)]
      exact Or.inr (Or.inl hp1)
    | some p2 =>
      simp only
      obtain ⟨hl2, hp2, -⟩ := searchPos_eq_some h2
      rw [min_eq_right (le_of_lt hl1)]
      rcases le_or_lt p1 p2 with hle | hlt
      · rw [min_eq_left hle]; exact Or.inr (Or.inl hp1)
      · rw [min_eq_right (le_of_lt hlt)]; exact Or.inr (Or.inr hp2)

/-- The character just before position `i` of the text, where `prev` is the
character just before the text itself (none at the start of the document). -/
def prevCharAt (prev : Option Char) (s : List Char) : Nat → Option Char
  | 0 => prev
  | j + 1 => s.get? j

theorem findHeaderFrom_none_of : ∀ {s : List Char} {prev : Option Char},
    (∀ i < s.length, headerAt (prevCharAt prev s i) (s.drop i) = false) →
    findHeaderFrom prev s = none := by
  intro s
  induction s with
  | nil => intro prev _; rfl
  | cons c cs ih =>
    intro prev h
    rw [findHeaderFrom]
    rw [if_neg (by simpa using h 0 (by simp))]
    have hrec : findHeaderFrom (some c) cs = none := by
      apply ih
      intro i hi
      have h2 := h (i + 1) (by simpa using hi)
      cases i with
      | zero => exact h2
      | succ j => exact h2
    rw [hrec]
    rfl

theorem findHeaderFrom_eq_some : ∀ {s : List Char} {prev : Option Char} {i : Nat},
    findHeaderFrom prev s = some i →
      i < s.length ∧ headerAt (prevCharAt prev s i) (s.drop i) = true := by
  intro s
  induction s with
  | nil => intro prev i h; cases h
  | cons c cs ih =>
    intro prev i h
    rw [findHeaderFrom] at h
    by_cases hp : headerAt prev (c :: cs)
    · rw [if_pos hp] at h
      cases h
      exact ⟨by simp, hp⟩
    · rw [if_neg hp] at h
      cases hr : findHeaderFrom (some c) cs with
      | none => rw [hr] at h; cases h
      | some j =>
        rw [hr] at h
        have h2 : some (j + 1) = some i := h
        cases h2
        obtain ⟨hjl, hpj⟩ := ih hr
        refine ⟨by simpa using hjl, ?_⟩
        cases j with
        | zero => exact hpj
        | succ m => exact hpj

/-- C6: in heuristic mode, an input with no case-insensitive whole-word match
of any header keyword yields the sentinel "References not found"; in
particular the input "Hello world, no citations here." yields the
sentinel. -/
theorem references_header_missing (text : List Char)
    (h : ∀ i < text.length, headerAt (prevCharAt none text i) (text.drop i) = false) :
    extract_references text = "References not found".data ∧
    extract_references "Hello world, no citations here.".data =
      "References not found".data := by
  constructor
  · simp only [extract_references, findHeaderFrom_none_of h]
  · decide

theorem references_header_missing_witness :
    extract_references "Hello world, no citations here.".data =
      "References not found".data :=
  (references_header_missing "Hello world, no citations here.".data (by decide)).1

/-- C5: in heuristic mode, once a header is matched at position i the result
is the span from the header to the end of the document, truncated at the
earliest end-marker occurrence inside the span (whole span if none), then
stripped; in particular "References\n1. A. Smith...\nAppendix\nfoo" is cut
just before "Appendix". -/
theorem references_span_truncation (text : List Char) (i : Nat)
    (h : findHeaderFrom none text = some i) :
    extract_references text =
      pyStrip ((text.drop i).take (endPos (text.drop i))) ∧
    (∀ q < endPos (text.drop i),
      marker1At ((text.drop i).drop q) = false ∧
      marker2At ((text.drop i).drop q) = false) ∧
    (endPos (text.drop i) = (text.drop i).length ∨
      marker1At ((text.drop i).drop (endPos (text.drop i))) = true ∨
      marker2At ((text.drop i).drop (endPos (text.drop i))) = true) ∧
    extract_references "References\n1. A. Smith...\nAppendix\nfoo".data =
      "References\n1. A. Smith...".data := by
  refine ⟨?_, endPos_min _, endPos_hit _, by decide⟩
  simp only [extract_references, h]

theorem references_span_truncation_witness :
    findHeaderFrom none "References\n1. A. Smith...\nAppendix\nfoo".data = some 0 ∧
    extract_references "References\n1. A. Smith...\nAppendix\nfoo".data =
      pyStrip ((("References\n1. A. Smith...\nAppendix\nfoo".data).drop 0).take
        (endPos (("References\n1. A. Smith...\nAppendix\nfoo".data).drop 0))) :=
  ⟨by decide,
    (references_span_truncation "References\n1. A. Smith...\nAppendix\nfoo".data 0
      (by decide)).1⟩

theorem matchesAt_length : ∀ {k s : List Char}, matchesAt k s = true → k.length ≤ s.length := by
  intro k
  induction k with
  | nil => intro s _; simp
  | cons p ps ih =>
    intro s h
    cases s with
    | nil => simp [matchesAt] at h
    | cons c cs =>
      rw [matchesAt, Bool.and_eq_true] at h
      simpa using ih h.2

theorem matchesAt_get : ∀ {k s : List Char}, matchesAt k s = true →
    ∀ i < k.length,
      ∃ pi ci, k.get? i = some pi ∧ s.get? i = some ci ∧ lowerEq pi ci = true := by
  intro k
  induction k with
  | nil => intro s _ i hi; simp at hi
  | cons p ps ih =>
    intro s h i hi
    cases s with
    | nil => simp [matchesAt] at h
    | cons c cs =>
      rw [matchesAt, Bool.and_eq_true] at h
      cases i with
      | zero => exact ⟨p, c, rfl, rfl, h.1⟩
      | succ m =>
        obtain ⟨pi, ci, h1, h2, h3⟩ := ih h.2 m (by simpa using hi)
        exact ⟨pi, ci, h1, h2, h3⟩

theorem matchesAt_take : ∀ {k s : List Char} {n : Nat}, matchesAt k s = true →
    k.length ≤ n → matchesAt k (s.take n) = true := by
  intro k
  induction k with
  | nil => intro s n _ _; rfl
  | cons p ps ih =>
    intro s n h hn
    cases s with
    | nil => simp [matchesAt] at h
    | cons c cs =>
      cases n with
      | zero => simp at hn
      | succ m =>
        rw [matchesAt, Bool.and_eq_true] at h
        rw [List.take_succ_cons, matchesAt, Bool.and_eq_true]
        exact ⟨h.1, ih h.2 (by simpa using hn)⟩

theorem head?_drop_eq_get? : ∀ (n : Nat) (l : List Char), (l.drop n).head? = l.get? n := by
  intro n
  induction n with
  | zero => intro l; cases l <;> rfl
  | succ m ih =>
    intro l
    cases l with
    | nil => rfl
    | cons c cs => exact ih cs

theorem marker1At_head {s : List Char} (h : marker1At s = true) : s.head? = some '\n' := by
  cases s with
  | nil => simp [marker1At] at h
  | cons c cs =>
    rw [marker1At, Bool.and_eq_true] at h
    have hc := of_decide_eq_true h.1
    simp [hc]

theorem marker2At_head {s : List Char} (h : marker2At s = true) : s.head? = some '\n' := by
  cases s with
  | nil => simp [marker2At] at h
  | cons c cs =>
    rw [marker2At, Bool.and_eq_true] at h
    have hc := of_decide_eq_true h.1
    simp [hc]

theorem headerAt_elim {prev : Option Char} {s : List Char} (h : headerAt prev s = true) :
    ∃ k ∈ refKeywords, matchesAt k s = true := by
  rw [headerAt, Bool.and_eq_true, List.any_eq_true] at h
  obtain ⟨-, k, hk, hkm⟩ := h
  rw [Bool.and_eq_true] at hkm
  exact ⟨k, hk, hkm.1⟩

/-- A pattern character whose lowercase form is not whitespace: a text
character matched against it case-insensitively is not whitespace either. -/
def lowNotSpace (p : Char) : Bool := !(isSpaceChar p.toLower)

theorem space_toLower {c : Char} (h : isSpaceChar c = true) : c.toLower = c := by
  simp only [isSpaceChar, Bool.or_eq_true, beq_iff_eq] at h
  rcases h with ((((rfl | rfl) | rfl) | rfl) | rfl) | rfl <;> rfl

theorem lowerEq_iff {p c : Char} : lowerEq p c = true ↔ p.toLower = c.toLower := by
  simp [lowerEq]

theorem lowerEq_not_space {p c : Char} (hl : lowerEq p c = true)
    (hp : lowNotSpace p = true) : isSpaceChar c = false := by
  cases hcs : isSpaceChar c
  · rfl
  · have he : p.toLower = c.toLower := lowerEq_iff.1 hl
    rw [space_toLower hcs] at he
    rw [lowNotSpace, he, hcs] at hp
    cases hp

theorem lowerEq_newline {p c : Char} (hl : lowerEq p c = true) (hc : c = '\n') :
    p.toLower = '\n' := by
  subst hc
  have h2 : Char.toLower '\n' = '\n' := by decide
  have := lowerEq_iff.1 hl
  rw [h2] at this
  exact this

theorem refKeywords_facts : ∀ k ∈ refKeywords,
    k.isEmpty = false ∧ k.head?.all lowNotSpace = true ∧
    (k.get? (k.length - 1)).all lowNotSpace = true ∧
    k.all (fun p => !(p.toLower == '\n')) = true := by
  intro k hk
  fin_cases hk <;> exact ⟨rfl, by decide, by decide, by decide⟩

theorem endPos_ge_keyword {k tfr : List Char} (hk : k ∈ refKeywords)
    (hm : matchesAt k tfr = true) : k.length ≤ endPos tfr := by
  by_contra hcon
  push_neg at hcon
  obtain ⟨-, -, -, hnl⟩ := refKeywords_facts k hk
  rcases endPos_hit tfr with he | hmk
  · have := matchesAt_length hm
    omega
  · have hhead : tfr.get? (endPos tfr) = some '\n' := by
      rw [← head?_drop_eq_get?]
      rcases hmk with h1 | h2
      · exact marker1At_head h1
      · exact marker2At_head h2
    obtain ⟨pi, ci, hpi, hci, hle⟩ := matchesAt_get hm (endPos tfr) hcon
    rw [hci] at hhead
    have hcn : ci = '\n' := by injection hhead
    have hpmem : pi ∈ k := List.get?_mem hpi
    have hlow := lowerEq_newline hle hcn
    have := List.all_eq_true.1 hnl pi hpmem
    simp [hlow] at this

theorem pyStrip_decomp_no_space_head {x : List Char}
    (hx : ∀ c, x.head? = some c → isSpaceChar c = false) :
    ∃ v, x = pyStrip x ++ v ∧ ∀ a ∈ v, isSpaceChar a = true := by
  obtain ⟨u, v, he, hu, hv⟩ := pyStrip_decomp x
  cases u with
  | nil => exact ⟨v, by simpa using he, hv⟩
  | cons a u2 =>
    have ha : x.head? = some a := by rw [he]; rfl
    exact absurd (hu a (List.mem_cons_self a u2)) (by simp [hx a ha])

/-- C10: whenever the heuristic locator does not return the sentinel, its
result is a contiguous substring of the input that begins with a
case-insensitive occurrence of one of the header keywords. -/
theorem references_span_shape (text : List Char)
    (h : extract_references text ≠ "References not found".data) :
    (∃ pre suf, text = pre ++ extract_references text ++ suf) ∧
    ∃ k ∈ refKeywords, matchesAt k (extract_references text) = true := by
  cases hf : findHeaderFrom none text with
  | none =>
    exact absurd (by simp only [extract_references, hf]) h
  | some i =>
    have hres : extract_references text =
        pyStrip ((text.drop i).take (endPos (text.drop i))) := by
      simp only [extract_references, hf]
    obtain ⟨hlt, hhd⟩ := findHeaderFrom_eq_some hf
    obtain ⟨k, hk, hm⟩ := headerAt_elim hhd
    obtain ⟨hkne, hkhead, hklast, -⟩ := refKeywords_facts k hk
    set tfr := text.drop i with htfr
    set e := endPos tfr with hedef
    set r := pyStrip (tfr.take e) with hrdef
    have hkl : 1 ≤ k.length := by
      cases k with
      | nil => simp at hkne
      | cons a b => simp
    have hkle : k.length ≤ e := endPos_ge_keyword hk hm
    have hmt : matchesAt k (tfr.take e) = true := matchesAt_take hm hkle
    have hheadns : ∀ c, (tfr.take e).head? = some c → isSpaceChar c = false := by
      intro c hc
      obtain ⟨pi, ci, hpi, hci, hle⟩ := matchesAt_get hmt 0 (by omega)
      rw [List.get?_zero, hc] at hci
      have hcic : c = ci := by injection hci
      have hpihead : k.head? = some pi := by rw [← List.get?_zero]; exact hpi
      have hplow : lowNotSpace pi = true := by
        rw [hpihead] at hkhead
        simpa using hkhead
      rw [hcic]
      exact lowerEq_not_space hle hplow
    obtain ⟨v, hv, hvs⟩ := pyStrip_decomp_no_space_head hheadns
    rw [← hrdef] at hv
    have hrlen : k.length ≤ r.length := by
      by_contra hcon
      push_neg at hcon
      obtain ⟨pi, ci, hpi, hci, hle⟩ := matchesAt_get hmt (k.length - 1) (by omega)
      rw [hv, List.get?_append_right (by omega)] at hci
      have hmem := List.get?_mem hci
      have hsp := hvs ci hmem
      have hplast : (k.get? (k.length - 1)).all lowNotSpace = true := hklast
      rw [hpi] at hplast
      have hplow : lowNotSpace pi = true := by simpa using hplast
      have := lowerEq_not_space hle hplow
      rw [this] at hsp
      cases hsp
    have hmr : matchesAt k r = true := by
      have h1 := matchesAt_take hmt hrlen
      rw [hv, List.take_left] at h1
      exact h1
    constructor
    · refine ⟨text.take i, v ++ tfr.drop e, ?_⟩
      rw [hres]
      conv_lhs => rw [← List.take_append_drop i text]
      rw [← htfr]
      conv_lhs => rw [← List.take_append_drop e tfr]
      rw [hv]
      simp [List.append_assoc]
    · exact ⟨k, hk, hres ▸ hmr⟩

theorem references_span_shape_witness :
    (∃ pre suf, "Intro\nReferences\n[1] A".data =
      pre ++ extract_references "Intro\nReferences\n[1] A".data ++ suf) ∧
    ∃ k ∈ refKeywords,
      matchesAt k (extract_references "Intro\nReferences\n[1] A".data) = true :=
  references_span_shape "Intro\nReferences\n[1] A".data (by decide)

/-! ## Field extraction and record assembly -/

/-- A record slot value: the source stores strings for most fields and
integers for start page, end page and citation count. -/
inductive FieldValue : Type
  | str : List Char → FieldValue
  | int : Nat → FieldValue
deriving DecidableEq

/-- The fixed schema of the assembled record, in assembly order. -/
def schemaKeys : List String :=
  ["ID", "AU", "TI", "SO", "DT", "DE", "AB", "C1", "RP", "PY", "VL", "IS",
   "BP", "EP", "DI", "UT", "TC", "CR"]

/-- `PDFExtractor.extract_info_with_gpt`: one completion-service call; the
answer is stripped, any exception is caught and replaced by "Unknown". -/
def extract_info_with_gpt {ε : Type} (gpt : List Char → String → Except ε (List Char))
    (text : List Char) (info_type : String) : List Char :=
  match gpt text info_type with
  | Except.ok content => pyStrip content
  | Except.error _ => "Unknown".data

/-- `PDFExtractor.get_citation_count`: first search result's citation count,
0 when there is no result, 0 when anything in the lookup raises. -/
def get_citation_count {ε : Type} (scholar : List Char → Except ε (Option Nat))
    (doi : List Char) : Nat :=
  match scholar doi with
  | Except.ok (some num_citations) => num_citations
  | Except.ok none => 0
  | Except.error _ => 0

/-- `PDFExtractor.extract_references_with_gpt`: service-assisted reference
extraction; failure yields the sentinel "References extraction failed". -/
def extract_references_with_gpt {ε : Type} (gptRefs : List Char → Except ε (List Char))
    (text : List Char) : List Char :=
  match gptRefs text with
  | Except.ok references => pyStrip references
  | Except.error _ => "References extraction failed".data

/-- `PDFExtractor.extract_fields`: assemble the record for one document from
the first-page text, the full text and the page count, with the external
collaborators passed as oracles and the generated uuid as `internal_id`. -/
def extract_fields {ε : Type} (internal_id : List Char)
    (gpt : List Char → String → Except ε (List Char))
    (scholar : List Char → Except ε (Option Nat))
    (gptRefs : List Char → Except ε (List Char))
    (text_first : List Char) (text : List Char) (num_pages : Nat)
    (use_gpt_for_references : Bool) : List (String × FieldValue) :=
  let authors := extract_info_with_gpt gpt text_first "Authors"
  let title := extract_info_with_gpt gpt text_first "Title"
  let source := extract_info_with_gpt gpt text_first
    "Source, i.e. the name of the journal, book, conference, etc."
  let document_type := extract_info_with_gpt gpt text_first
    "Document Type, i.e. Research Paper, Book, Conference Paper, etc."
  let keywords := extract_info_with_gpt gpt text_first
    "Keywords provided by the authors, do not confuse them with the title or abstract, usually 3-5 words, separated by commas. If no keywords are provided, return empty string."
  let abstract := extract_info_with_gpt gpt text_first "Abstract of the citing article"
  let affiliations := extract_info_with_gpt gpt text_first
    "Author Affiliations, i.e. institutional affiliations of the authors, remove any leading superscripts or footnotes, separated by semicolons, and if no affiliations are provided, return empty string"
  let corresponding_author := extract_info_with_gpt gpt text_first
    "Corresponding Author, i.e. name and email of the corresponding author"
  let publication_year := extract_info_with_gpt gpt text_first
    "Publication Year, i.e. the year of publication for the citing article"
  let volume := extract_info_with_gpt gpt text_first
    "Volume, i.e. the volume number of the source journal or book if any, if not return empty string"
  let issue := extract_info_with_gpt gpt text_first
    "Issue, i.e. the issue number of the source journal if applicable, if not return empty string"
  let doi := extract_info_with_gpt gpt text_first
    "DOI, i.e. the Digital Object Identifier (DOI) of the article"
  let unique_article_id := extract_info_with_gpt gpt text_first
    "Unique Article Identifier, i.e. an additional unique identifier if available, e.g., Web of Science or arXiv ID, if not return empty string"
  let start_page := 1
  let end_page := num_pages
  let references :=
    if use_gpt_for_references then extract_references_with_gpt gptRefs text
    else extract_references text
  let citation_count := get_citation_count scholar doi
  let authors := clean_extracted_info authors "Authors"
  let title := clean_extracted_info title "Title"
  let source := clean_extracted_info source "Source"
  let document_type := clean_extracted_info document_type "Document Type"
  let keywords := clean_extracted_info keywords "Keywords"
  let abstract := clean_extracted_info abstract "Abstract"
  let affiliations := clean_extracted_info affiliations "Affiliations"
  let corresponding_author := clean_extracted_info corresponding_author "Corresponding Author"
  let publication_year := clean_extracted_info publication_year "Publication Year"
  let volume := clean_extracted_info volume "Volume"
  let issue := clean_extracted_info issue "Issue"
  let doi := clean_extracted_info doi "DOI"
  let unique_article_id := clean_extracted_info unique_article_id "Unique Article Identifier"
  [("ID", FieldValue.str internal_id),
   ("AU", FieldValue.str authors),
   ("TI", FieldValue.str title),
   ("SO", FieldValue.str source),
   ("DT", FieldValue.str document_type),
   ("DE", FieldValue.str keywords),
   ("AB", FieldValue.str abstract),
   ("C1", FieldValue.str affiliations),
   ("RP", FieldValue.str corresponding_author),
   ("PY", FieldValue.str publication_year),
   ("VL", FieldValue.str volume),
   ("IS", FieldValue.str issue),
   ("BP", FieldValue.int start_page),
   ("EP", FieldValue.int end_page),
   ("DI", FieldValue.str doi),
   ("UT", FieldValue.str unique_article_id),
   ("TC", FieldValue.int citation_count),
   ("CR", FieldValue.str references)]

/-- `PDFExtractor.extract_text_from_pdf` on a document modelled as the list
of its page texts. -/
def extract_text_from_pdf (doc : List (List Char)) (mode : String) : List Char :=
  if mode = "first" ∧ 0 < doc.length then doc.headD []
  else if mode = "all" then doc.foldl (fun acc page => acc ++ page) []
  else []

/-- The per-document step of `PDFExtractor.process_pdfs_in_folder`: first
page text, full text, and then `extract_fields` called with
`len(full_text.split('\n'))` as the `num_pages` argument. -/
def process_one_pdf {ε : Type} (internal_id : List Char)
    (gpt : List Char → String → Except ε (List Char))
    (scholar : List Char → Except ε (Option Nat))
    (gptRefs : List Char → Except ε (List Char))
    (doc : List (List Char)) (use_gpt_for_references : Bool) :
    List (String × FieldValue) :=
  let text_first := extract_text_from_pdf doc "first"
  let full_text := extract_text_from_pdf doc "all"
  extract_fields internal_id gpt scholar gptRefs text_first full_text
    ((pySplit '\n' full_text).length) use_gpt_for_references

/-- C2: for every processed document the assembled record contains every
field of the fixed schema with no missing entry; a failed field request
leaves the "Unknown" sentinel in its slot and a failed citation lookup
leaves 0, rather than the slot being absent. -/
theorem record_schema_complete {ε : Type} (internal_id : List Char)
    (gpt : List Char → String → Except ε (List Char))
    (scholar : List Char → Except ε (Option Nat))
    (gptRefs : List Char → Except ε (List Char))
    (text_first text : List Char) (num_pages : Nat) (flag : Bool) :
    ((extract_fields internal_id gpt scholar gptRefs text_first text num_pages flag).map
        Prod.fst = schemaKeys) ∧
    (∀ key ∈ schemaKeys,
      ((extract_fields internal_id gpt scholar gptRefs text_first text num_pages
        flag).lookup key).isSome = true) ∧
    (∀ e : ε, gpt text_first "Authors" = Except.error e →
      (extract_fields internal_id gpt scholar gptRefs text_first text num_pages
        flag).lookup "AU" = some (FieldValue.str "Unknown".data)) ∧
    (∀ e : ε, scholar (extract_info_with_gpt gpt text_first
        "DOI, i.e. the Digital Object Identifier (DOI) of the article") =
          Except.error e →
      (extract_fields internal_id gpt scholar gptRefs text_first text num_pages
        flag).lookup "TC" = some (FieldValue.int 0)) := by
  refine ⟨rfl, ?_, ?_, ?_⟩
  · intro key hk
    fin_cases hk <;> rfl
  · intro e he
    have h1 : extract_info_with_gpt gpt text_first "Authors" = "Unknown".data := by
      simp only [extract_info_with_gpt, he]
    have h2 : (extract_fields internal_id gpt scholar gptRefs text_first text num_pages
        flag).lookup "AU" = some (FieldValue.str (clean_extracted_info
          (extract_info_with_gpt gpt text_first "Authors") "Authors")) := rfl
    rw [h2, h1]
    decide
  · intro e he
    have h2 : (extract_fields internal_id gpt scholar gptRefs text_first text num_pages
        flag).lookup "TC" = some (FieldValue.int (get_citation_count scholar
          (extract_info_with_gpt gpt text_first
            "DOI, i.e. the Digital Object Identifier (DOI) of the article"))) := rfl
    rw [h2]
    simp only [get_citation_count, he]

theorem record_schema_complete_witness :
    ((extract_fields "id".data (fun _ _ => (Except.error () : Except Unit (List Char)))
        (fun _ => Except.error ()) (fun _ => Except.error ())
        "x".data "y".data 3 false).lookup "AU" =
      some (FieldValue.str "Unknown".data)) ∧
    ((extract_fields "id".data (fun _ _ => (Except.error () : Except Unit (List Char)))
        (fun _ => Except.error ()) (fun _ => Except.error ())
        "x".data "y".data 3 false).lookup "CR").isSome = true :=
  ⟨(record_schema_complete "id".data (fun _ _ => Except.error ())
      (fun _ => Except.error ()) (fun _ => Except.error ())
      "x".data "y".data 3 false).2.2.1 () rfl,
   (record_schema_complete "id".data (fun _ _ => Except.error ())
      (fun _ => Except.error ()) (fun _ => Except.error ())
      "x".data "y".data 3 false).2.1 "CR" (by decide)⟩

/-- C3: an exception in the completion-service call for a field is caught
and the field becomes the literal "Unknown"; no failure blocks any other
field or the assembly of the record, whose schema is complete for every
oracle and whose TI slot is computed from the Title request alone. -/
theorem field_failure_isolated :
    (∀ (ε : Type) (gpt : List Char → String → Except ε (List Char))
        (text : List Char) (info_type : String) (e : ε),
      gpt text info_type = Except.error e →
        extract_info_with_gpt gpt text info_type = "Unknown".data) ∧
    (∀ (ε : Type) (internal_id : List Char)
        (gpt : List Char → String → Except ε (List Char))
        (scholar : List Char → Except ε (Option Nat))
        (gptRefs : List Char → Except ε (List Char))
        (text_first text : List Char) (num_pages : Nat) (flag : Bool),
      ((extract_fields internal_id gpt scholar gptRefs text_first text num_pages
          flag).map Prod.fst = schemaKeys) ∧
      (extract_fields internal_id gpt scholar gptRefs text_first text num_pages
          flag).lookup "TI" = some (FieldValue.str (clean_extracted_info
            (extract_info_with_gpt gpt text_first "Title") "Title"))) := by
  constructor
  · intro ε gpt text info_type e he
    simp only [extract_info_with_gpt, he]
  · intro ε internal_id gpt scholar gptRefs text_first text num_pages flag
    exact ⟨rfl, rfl⟩

theorem field_failure_isolated_witness :
    extract_info_with_gpt (fun _ _ => (Except.error () : Except Unit (List Char)))
      "t".data "Authors" = "Unknown".data :=
  field_failure_isolated.1 Unit (fun _ _ => Except.error ()) "t".data "Authors" () rfl

/-- C4: the citation lookup returns the first search result's citation count
when a result exists, and 0 when there is no match or when the lookup fails;
it never raises and its result is a natural number. -/
theorem citation_lookup_total :
    (∀ (ε : Type) (scholar : List Char → Except ε (Option Nat))
        (doi : List Char) (n : Nat),
      scholar doi = Except.ok (some n) → get_citation_count scholar doi = n) ∧
    (∀ (ε : Type) (scholar : List Char → Except ε (Option Nat)) (doi : List Char),
      scholar doi = Except.ok none → get_citation_count scholar doi = 0) ∧
    (∀ (ε : Type) (scholar : List Char → Except ε (Option Nat))
        (doi : List Char) (e : ε),
      scholar doi = Except.error e → get_citation_count scholar doi = 0) := by
  refine ⟨?_, ?_, ?_⟩
  · intro ε scholar doi n h
    simp only [get_citation_count, h]
  · intro ε scholar doi h
    simp only [get_citation_count, h]
  · intro ε scholar doi e h
    simp only [get_citation_count, h]

theorem citation_lookup_total_witness :
    get_citation_count (fun _ => (Except.ok (some 5) : Except Unit (Option Nat)))
      "d".data = 5 ∧
    get_citation_count (fun _ => (Except.error () : Except Unit (Option Nat)))
      "d2".data = 0 :=
  ⟨citation_lookup_total.1 Unit (fun _ => Except.ok (some 5)) "d".data 5 rfl,
   citation_lookup_total.2.2 Unit (fun _ => Except.error ()) "d2".data () rfl⟩

/-- C1: `extract_fields` itself sets BP to 1 and EP to its `num_pages`
argument, but `process_pdfs_in_folder` passes the line count of the
concatenated full text as that argument: for a one-page document whose page
text is "a\nb" the assembled record has EP = 2 while the page count is 1,
so EP does not equal the document page count. -/
theorem end_page_line_count_bug :
    (∀ (ε : Type) (internal_id : List Char)
        (gpt : List Char → String → Except ε (List Char))
        (scholar : List Char → Except ε (Option Nat))
        (gptRefs : List Char → Except ε (List Char))
        (text_first text : List Char) (num_pages : Nat) (flag : Bool),
      ((extract_fields internal_id gpt scholar gptRefs text_first text num_pages
          flag).lookup "BP" = some (FieldValue.int 1)) ∧
      ((extract_fields internal_id gpt scholar gptRefs text_first text num_pages
          flag).lookup "EP" = some (FieldValue.int num_pages))) ∧
    ((process_one_pdf "id".data (fun _ _ => (Except.error () : Except Unit (List Char)))
        (fun _ => Except.error ()) (fun _ => Except.error ())
        ["a\nb".data] false).lookup "BP" = some (FieldValue.int 1)) ∧
    ((process_one_pdf "id".data (fun _ _ => (Except.error () : Except Unit (List Char)))
        (fun _ => Except.error ()) (fun _ => Except.error ())
        ["a\nb".data] false).lookup "EP" = some (FieldValue.int 2)) ∧
    (["a\nb".data] : List (List Char)).length = 1 := by
  refine ⟨?_, rfl, ?_, rfl⟩
  · intro ε internal_id gpt scholar gptRefs text_first text num_pages flag
    exact ⟨rfl, rfl⟩
  · decide
